import Mathlib

/-!
Verification of the TikTokSage download-orchestration core against its
natural-language specification.  The Python source is shallowly embedded:
pure logic becomes Lean functions, the mutable managers become explicit
state passing, the external subprocess / HTTP / clock boundaries become
explicit input streams, and `json.loads` results become an inductive
JSON value type.
-/

set_option maxRecDepth 4096

/-- Model of a Python/JSON value as produced by `json.loads` and stored in
the config / history documents.  Objects are insertion-ordered association
lists, matching Python dict semantics. -/
inductive JsonVal where
  | null : JsonVal
  | bool (b : Bool) : JsonVal
  | num (n : Int) : JsonVal
  | str (s : String) : JsonVal
  | arr (xs : List JsonVal) : JsonVal
  | obj (fields : List (String × JsonVal)) : JsonVal
deriving Repr

namespace JsonVal

/-- Python truthiness (`if value:`) of a JSON value: `None`, `False`, `0`,
`""`, `[]` and `{}` are falsy, everything else truthy. -/
def isTruthy : JsonVal → Bool
  | .null => false
  | .bool b => b
  | .num n => n != 0
  | .str s => s != ""
  | .arr xs => !xs.isEmpty
  | .obj m => !m.isEmpty

end JsonVal

/-- First-match lookup in an insertion-ordered dict, modelling `k in d`
followed by `d[k]` on a Python dict (which has no duplicate keys). -/
def dictLookup (d : List (String × JsonVal)) (k : String) : Option JsonVal :=
  match d with
  | [] => none
  | (k', v) :: rest => if k' = k then some v else dictLookup rest k

/-- Python `d[k] = v` on an insertion-ordered dict: replace the value of an
existing key in place, otherwise append the new binding at the end. -/
def dictSet (d : List (String × JsonVal)) (k : String) (v : JsonVal) :
    List (String × JsonVal) :=
  match d with
  | [] => [(k, v)]
  | (k', v') :: rest =>
    if k' = k then (k', v) :: rest else (k', v') :: dictSet rest k v

/-- Python `d.get(k, default)` on a dict value. -/
def dictGetD (d : List (String × JsonVal)) (k : String) (dflt : JsonVal) : JsonVal :=
  match dictLookup d k with
  | some v => v
  | none => dflt

/-- Python `{**a, **b}`: start from `a` and write every binding of `b`
into it, `b`'s values overriding `a`'s on shared keys. -/
def dictMerge (a b : List (String × JsonVal)) : List (String × JsonVal) :=
  b.foldl (fun d kv => dictSet d kv.1 kv.2) a

/-- The keys of a dict, for the no-duplicate-keys well-formedness that every
real Python dict enjoys. -/
def dictKeys (d : List (String × JsonVal)) : List String := d.map Prod.fst

namespace ConfigManager

/-- Embedding of `ConfigManager._default_config` from
`src/utils/tiktoksage_config_manager.py` (the two path strings are
platform-dependent at runtime; they are embedded as their literal
expressions' intent, which no theorem depends on). -/
def default_config : List (String × JsonVal) :=
  [ ("download_path", .str "~/Downloads"),
    ("speed_limit_value", .null),
    ("speed_limit_unit_index", .num 0),
    ("cookie_source", .str "browser"),
    ("cookie_browser", .str "chrome"),
    ("cookie_browser_profile", .str ""),
    ("cookie_file_path", .null),
    ("cookie_active", .bool false),
    ("proxy_url", .null),
    ("geo_proxy_url", .null),
    ("language", .str "en"),
    ("auto_update_check", .bool true),
    ("force_output_format", .bool false),
    ("preferred_output_format", .str "mp4"),
    ("force_audio_format", .bool false),
    ("preferred_audio_format", .str "best"),
    ("cached_versions", .obj
      [ ("ytdlp", .obj
          [ ("version", .null), ("path", .null),
            ("last_check", .num 0), ("path_mtime", .num 0) ]),
        ("ffmpeg", .obj
          [ ("version", .null), ("path", .null),
            ("last_check", .num 0), ("path_mtime", .num 0) ]) ]) ]

/-- The walk inside `ConfigManager.get`: `value = settings`, then
`for k in keys: if isinstance(value, dict) and k in value: value = value[k]
else: return default`.  `none` is the early `return default`. -/
def walk : JsonVal → List String → Option JsonVal
  | v, [] => some v
  | .obj m, k :: rest =>
    match dictLookup m k with
    | some v => walk v rest
    | none => none
  | _, _ :: _ => none

/-- `ConfigManager.get` on already-split keys: walk the nested dicts and
finally `return value if value is not None else default`. -/
def getKeys (settings : List (String × JsonVal)) (keys : List String)
    (dflt : JsonVal) : JsonVal :=
  match walk (.obj settings) keys with
  | some .null => dflt
  | some v => v
  | none => dflt

/-- `ConfigManager.get`: split the dotted key and walk. -/
def get (settings : List (String × JsonVal)) (key : String) (dflt : JsonVal) :
    JsonVal :=
  getKeys settings (key.splitOn ".") dflt

/-- The navigate/create loop of `ConfigManager.set` on already-split keys:
for every intermediate key, reuse the existing sub-dict if present and a
dict, otherwise overwrite with a fresh `{}`; finally bind the last key. -/
def setKeys (settings : List (String × JsonVal)) :
    List String → JsonVal → List (String × JsonVal)
  | [], _ => settings
  | [k], v => dictSet settings k v
  | k :: k' :: rest, v =>
    let sub : List (String × JsonVal) :=
      match dictLookup settings k with
      | some (.obj m) => m
      | _ => []
    dictSet settings k (.obj (setKeys sub (k' :: rest) v))

/-- `ConfigManager.set`: split the dotted key, walk/create, bind, persist. -/
def set (settings : List (String × JsonVal)) (key : String) (v : JsonVal) :
    List (String × JsonVal) :=
  setKeys settings (key.splitOn ".") v

/-- `ConfigManager._load` on an existing, parseable config file whose root is
a dict `data`: `cls._settings = {**cls._default_config, **data}` (top-level
merge with defaults; nested defaults are not deep-merged). -/
def load (data : List (String × JsonVal)) : List (String × JsonVal) :=
  dictMerge default_config data

end ConfigManager

namespace HistoryManager

/-- Embedding of one history entry as built by `HistoryManager.add_entry`
in `src/utils/tiktoksage_history_manager.py`.  `download_options` is kept
as a JSON object; the two clock reads (`time.time()` and
`datetime.now().isoformat()`) are inputs of the model. -/
structure HistoryEntry where
  id : String
  title : String
  url : String
  thumbnail_url : Option String
  file_path : Option String
  format_id : Option String
  is_audio_only : Bool
  resolution : Option String
  download_options : List (String × JsonVal)
  timestamp : String
deriving Repr

/-- The entry `add_entry` constructs:
`entry_id = str(int(time.time() * 1000))` and the literal dict. -/
def mkEntry (now_ms : Nat) (now_iso : String) (title url : String)
    (thumbnail_url file_path format_id : Option String)
    (is_audio_only : Bool) (resolution : Option String)
    (download_options : Option (List (String × JsonVal))) : HistoryEntry :=
  { id := Nat.repr now_ms
    title := title
    url := url
    thumbnail_url := thumbnail_url
    file_path := file_path
    format_id := format_id
    is_audio_only := is_audio_only
    resolution := resolution
    download_options := download_options.getD []
    timestamp := now_iso }

/-- `HistoryManager.add_entry`: build the entry, `history.insert(0, entry)`,
save, and return the id.  The mutable class state becomes explicit. -/
def add_entry (history : List HistoryEntry) (now_ms : Nat) (now_iso : String)
    (title url : String)
    (thumbnail_url file_path format_id : Option String := none)
    (is_audio_only : Bool := false) (resolution : Option String := none)
    (download_options : Option (List (String × JsonVal)) := none) :
    String × List HistoryEntry :=
  let e := mkEntry now_ms now_iso title url thumbnail_url file_path format_id
    is_audio_only resolution download_options
  (e.id, e :: history)

/-- `HistoryManager.get_all_entries`: a copy of the in-memory list. -/
def get_all_entries (history : List HistoryEntry) : List HistoryEntry :=
  history

/-- Convenience fold: perform `add_entry` once per element of `calls`,
each call supplying its clock reading and title/url. -/
def addAll (history : List HistoryEntry) :
    List (Nat × String × String) → List HistoryEntry
  | [] => history
  | (ms, title, url) :: rest =>
    addAll (add_entry history ms "" title url).2 rest

/-- The entry produced by one `addAll` element. -/
def entryOfCall (c : Nat × String × String) : HistoryEntry :=
  mkEntry c.1 "" c.2.1 c.2.2 none none none false none none

end HistoryManager

namespace ChannelDownloader

/-- One video-info dict as assembled inside `get_channel_videos` of
`src/core/tiktoksage_channel_downloader.py`; fields keep the raw JSON
values that `video_data.get` returns. -/
structure VideoInfo where
  url : JsonVal
  title : JsonVal
  id : JsonVal
  duration : JsonVal
  thumbnail : JsonVal
deriving Repr

/-- The dict literal built for each valid record:
defaults `''`, `'Unknown'`, `''`, `0`, `''`, and
`url = video_data.get('webpage_url', video_data.get('url', ''))`. -/
def mkVideoInfo (m : List (String × JsonVal)) : VideoInfo :=
  { url := dictGetD m "webpage_url" (dictGetD m "url" (.str ""))
    title := dictGetD m "title" (.str "Unknown")
    id := dictGetD m "id" (.str "")
    duration := dictGetD m "duration" (.num 0)
    thumbnail := dictGetD m "thumbnail" (.str "") }

/-- Callback invocations observable from one enumeration call:
`video_callback(video_info)` and `progress_callback(total, current)`. -/
inductive CbEvent where
  | videoFound (v : VideoInfo) : CbEvent
  | progress (total current : Nat) : CbEvent
deriving Repr

/-- Result of streaming one strategy's subprocess output: the collected
`videos` list, the `videos_yielded` counter, the callbacks fired, and
whether the per-line loop aborted with a non-`JSONDecodeError` exception
(a truthy non-dict record makes `video_data.get` raise, which only the
outer per-approach handler catches). -/
structure ApproachResult where
  videos : List VideoInfo
  yielded : Nat
  events : List CbEvent
  aborted : Bool
deriving Repr

/-- The per-line streaming loop of `get_channel_videos` for one approach.
Each element of `lines` is the outcome of `json.loads` on one stripped
line: `none` for a `JSONDecodeError` (skipped via `continue`), `some j`
for a parsed value `j`.  Falsy parsed values are skipped; truthy non-dict
values abort the approach; valid records without a truthy URL are dropped
silently; after appending a record and firing callbacks, the loop breaks
once `videos_yielded` reaches a positive `max_videos`. -/
def runLines (max_videos : Nat) (videos : List VideoInfo) (yielded : Nat)
    (events : List CbEvent) : List (Option JsonVal) → ApproachResult
  | [] => ⟨videos, yielded, events, false⟩
  | line :: rest =>
    match line with
    | none => runLines max_videos videos yielded events rest
    | some j =>
      if j.isTruthy then
        match j with
        | .obj m =>
          let vi := mkVideoInfo m
          if vi.url.isTruthy then
            let videos := videos ++ [vi]
            let yielded := yielded + 1
            let events := events ++
              [CbEvent.videoFound vi,
               CbEvent.progress (if max_videos > 0 then max_videos else 0) yielded]
            if max_videos > 0 && yielded ≥ max_videos then
              ⟨videos, yielded, events, false⟩
            else
              runLines max_videos videos yielded events rest
          else
            runLines max_videos videos yielded events rest
        | _ => ⟨videos, yielded, events, true⟩
      else
        runLines max_videos videos yielded events rest

/-- Process one approach starting from the fresh per-approach state
(`videos = []`, `videos_yielded = 0`). -/
def runApproach (max_videos : Nat) (lines : List (Option JsonVal)) :
    ApproachResult :=
  runLines max_videos [] 0 [] lines

/-- Result of a whole `get_channel_videos` call: the returned list and the
number of strategies actually launched. -/
structure EnumResult where
  videos : List VideoInfo
  attempted : Nat
deriving Repr

/-- The strategy-fallback loop of `get_channel_videos`: each element of
`approaches` is the line stream that strategy's subprocess would emit.
An approach whose collected `videos` list is non-empty returns it at once
(both the normal exit at `if videos: return videos` and the per-approach
exception handler's `if videos: return videos` behave this way); an
approach with zero videos falls through to the next; exhausting all
approaches returns `[]`. -/
def get_channel_videos (max_videos : Nat) :
    List (List (Option JsonVal)) → EnumResult
  | [] => ⟨[], 0⟩
  | lines :: rest =>
    let r := runApproach max_videos lines
    if r.videos.isEmpty then
      let tail := get_channel_videos max_videos rest
      ⟨tail.videos, tail.attempted + 1⟩
    else
      ⟨r.videos, 1⟩

end ChannelDownloader

namespace Downloader

/-- One pull from `response.iter_content(chunk_size=8192)` in
`DownloadThread._download_async`: either a chunk of `size` bytes arrives,
or advancing the iterator raises (connection error mid-transfer). -/
inductive ChunkItem where
  | data (size : Nat) : ChunkItem
  | interrupted : ChunkItem
deriving Repr, DecidableEq

/-- Terminal state of one download job. -/
inductive JobState where
  | Completed
  | Cancelled
  | Failed
deriving Repr, DecidableEq

/-- Outcome of the chunked-HTTP write loop: terminal state, whether the
destination file exists on disk after the job ends, and bytes written. -/
structure DownloadOutcome where
  state : JobState
  fileExists : Bool
  bytesWritten : Nat
deriving Repr, DecidableEq

/-- Whether the job's cooperative `self.cancelled` flag reads true at loop
iteration `i`, for a flag set once at iteration `cancelAt` (the flag is
only ever set, never cleared). -/
def cancelledAt (cancelAt : Option Nat) (i : Nat) : Bool :=
  match cancelAt with
  | some n => n ≤ i
  | none => false

/-- The `with open(output_file, 'wb') as f: for chunk in
response.iter_content(...)` loop.  Per iteration: the iterator is advanced
first (an `interrupted` item raises, propagating out with no cleanup —
the job fails and the partial file stays); then `if self.cancelled:`
unlinks the file and returns; then `if chunk:` writes and counts non-empty
chunks.  Falling off the end of the stream completes the job. -/
def runChunks (cancelAt : Option Nat) (i : Nat) (downloaded : Nat) :
    List ChunkItem → DownloadOutcome
  | [] => ⟨.Completed, true, downloaded⟩
  | c :: rest =>
    match c with
    | .interrupted => ⟨.Failed, true, downloaded⟩
    | .data size =>
      if cancelledAt cancelAt i then
        ⟨.Cancelled, false, downloaded⟩
      else
        let downloaded := if size ≠ 0 then downloaded + size else downloaded
        runChunks cancelAt (i + 1) downloaded rest

/-- The chunked-HTTP transfer of `_download_async` from the point the
destination file has been opened (hence created): stream the chunk items,
with the cancellation flag becoming true at iteration `cancelAt`. -/
def downloadStream (cancelAt : Option Nat) (stream : List ChunkItem) :
    DownloadOutcome :=
  runChunks cancelAt 0 0 stream

/-- Result of the `create_sessions` retry loop shared by
`DownloadThread._download_async` and `VideoInfoThread._fetch_video_async`:
whether a session was established, how many `create_sessions` calls were
made, and the `asyncio.sleep` backoffs performed (in seconds). -/
structure SessionResult where
  created : Bool
  attempts : Nat
  sleeps : List Nat
deriving Repr, DecidableEq

/-- The `for attempt in range(max_retries)` loop, with `outcomes` listing
the would-be result of each successive `create_sessions` call (the list
has one entry per remaining loop iteration).  A success breaks out; a
failure sleeps 2 seconds only when it is not the last iteration
(`if attempt < max_retries - 1`). -/
def createSessionsRetry : List Bool → SessionResult
  | [] => ⟨false, 0, []⟩
  | ok :: rest =>
    if ok then
      ⟨true, 1, []⟩
    else if rest.isEmpty then
      ⟨false, 1, []⟩
    else
      let r := createSessionsRetry rest
      ⟨r.created, r.attempts + 1, 2 :: r.sleeps⟩

/-- `max_retries = 2` as set in both async methods. -/
def max_retries : Nat := 2

/-- Observable outcome of `VideoInfoThread._fetch_video_async` up to the
point the video metadata is requested: the retry result, whether the
"Failed to connect" error was emitted, and whether `api.video(...)`
was reached. -/
structure FetchOutcome where
  session : SessionResult
  connectionErrorEmitted : Bool
  metadataFetched : Bool
deriving Repr, DecidableEq

/-- The session-establishment phase of `_fetch_video_async`: run the retry
loop (`outcomes i` is what the `i`-th `create_sessions` call would do);
`if not session_created:` emit the connection error and return without
fetching metadata, else proceed to `api.video(url=...)`. -/
def fetchVideoSession (outcomes : Nat → Bool) : FetchOutcome :=
  let r := createSessionsRetry ((List.range max_retries).map outcomes)
  if r.created then
    ⟨r, false, true⟩
  else
    ⟨r, true, false⟩

/-- `VideoInfoThread.run`: try yt-dlp first; only when it is unavailable
or fails (`_try_ytdlp_video_info()` returns `False`) does the TikTokApi
fallback with its session retry run. -/
def videoInfoRun (ytdlpSucceeds : Bool) (outcomes : Nat → Bool) :
    Option FetchOutcome :=
  if ytdlpSucceeds then none else some (fetchVideoSession outcomes)

end Downloader

namespace GuiQueue

/-- Observable result of draining a download queue in
`MainWindow` (`src/gui/tiktoksage_gui_main.py`): the jobs started in
order, how many completed, how many failures were logged by
`on_download_error`, and whether the failure dialog (the user-visible
error) was shown. -/
structure QueueResult where
  started : List String
  completions : Nat
  failuresLogged : Nat
  errorSurfaced : Bool
deriving Repr, DecidableEq

/-- Drain the queue from `current_queue_index = idx`.  `outcomes` holds one
boolean per job that gets started (`true` = `finished_signal`, `false` =
`error_signal`).  `download_next_from_queue` starts `queue[idx]`; on the
job's signal, `on_download_finished` / `on_download_error` both advance
and start the next job iff
`self.download_queue and self.current_queue_index < len(self.download_queue) - 1`,
and otherwise end the run — `on_download_finished` with the completion
dialog, `on_download_error` with the error dialog (surfaced failure). -/
def drainFrom (queue : List String) (idx : Nat) :
    List Bool → QueueResult
  | [] => ⟨if idx < queue.length then [queue.getD idx ""] else [], 0, 0, false⟩
  | ok :: rest =>
    if idx < queue.length then
      let url := queue.getD idx ""
      if !queue.isEmpty && idx + 1 < queue.length then
        let r := drainFrom queue (idx + 1) rest
        if ok then
          ⟨url :: r.started, r.completions + 1, r.failuresLogged, r.errorSurfaced⟩
        else
          ⟨url :: r.started, r.completions, r.failuresLogged + 1, r.errorSurfaced⟩
      else
        if ok then
          ⟨[url], 1, 0, false⟩
        else
          ⟨[url], 0, 1, true⟩
    else
      ⟨[], 0, 0, false⟩

/-- `queue_downloads(urls, ...)`: set the queue, reset the index to 0 and
start draining. -/
def queue_downloads (urls : List String) (outcomes : List Bool) : QueueResult :=
  drainFrom urls 0 outcomes

end GuiQueue

/-- Numeric value of one decimal digit character. -/
def decDigitVal (c : Char) : Nat := c.toNat - '0'.toNat

/-- Numeric value of a decimal digit string, used to relate the
timestamp-string ids generated by `HistoryManager.add_entry` back to the
clock readings they came from. -/
def decVal (s : List Char) : Nat :=
  s.foldl (fun a c => 10 * a + decDigitVal c) 0

/- ======================================================================
   Theorems
   ====================================================================== -/

section DictLemmas

theorem dictLookup_dictSet_self (d : List (String × JsonVal)) (k : String)
    (v : JsonVal) : dictLookup (dictSet d k v) k = some v := by
  induction d with
  | nil => simp [dictSet, dictLookup]
  | cons kv rest ih =>
    obtain ⟨k', v'⟩ := kv
    by_cases h : k' = k
    · simp [dictSet, dictLookup, h]
    · simp [dictSet, dictLookup, h, ih]

theorem dictLookup_dictSet_ne (d : List (String × JsonVal)) (k k' : String)
    (v : JsonVal) (h : k' ≠ k) :
    dictLookup (dictSet d k' v) k = dictLookup d k := by
  induction d with
  | nil => simp [dictSet, dictLookup, h]
  | cons kv rest ih =>
    obtain ⟨k₀, v₀⟩ := kv
    by_cases h₀ : k₀ = k'
    · subst h₀
      simp [dictSet, dictLookup, h]
    · simp [dictSet, dictLookup, h₀, ih]

theorem dictKeys_nil : dictKeys [] = [] := rfl

theorem dictKeys_cons (k₀ : String) (v₀ : JsonVal)
    (rest : List (String × JsonVal)) :
    dictKeys ((k₀, v₀) :: rest) = k₀ :: dictKeys rest := rfl

theorem dictLookup_eq_none_of_not_mem (d : List (String × JsonVal))
    (k : String) (h : k ∉ dictKeys d) : dictLookup d k = none := by
  induction d with
  | nil => rfl
  | cons kv rest ih =>
    obtain ⟨k₀, v₀⟩ := kv
    rw [dictKeys_cons, List.mem_cons, not_or] at h
    rw [dictLookup, if_neg (fun hh => h.1 hh.symm)]
    exact ih h.2

theorem dictKeys_dictSet (d : List (String × JsonVal)) (k : String)
    (v : JsonVal) :
    dictKeys (dictSet d k v) =
      if k ∈ dictKeys d then dictKeys d else dictKeys d ++ [k] := by
  induction d with
  | nil => simp [dictSet, dictKeys]
  | cons kv rest ih =>
    obtain ⟨k₀, v₀⟩ := kv
    by_cases h₀ : k₀ = k
    · subst h₀
      rw [dictSet, if_pos rfl, dictKeys_cons, dictKeys_cons,
        if_pos (List.mem_cons_self k₀ _)]
    · rw [dictSet, if_neg h₀, dictKeys_cons, dictKeys_cons, ih]
      by_cases hm : k ∈ dictKeys rest
      · rw [if_pos hm, if_pos (List.mem_cons_of_mem k₀ hm)]
      · have hnc : k ∉ k₀ :: dictKeys rest := by
          intro hc
          rcases List.mem_cons.mp hc with hc | hc
          · exact h₀ hc.symm
          · exact hm hc
        rw [if_neg hm, if_neg hnc, List.cons_append]

theorem nodup_dictKeys_dictSet (d : List (String × JsonVal)) (k : String)
    (v : JsonVal) (h : (dictKeys d).Nodup) :
    (dictKeys (dictSet d k v)).Nodup := by
  rw [dictKeys_dictSet]
  by_cases hm : k ∈ dictKeys d
  · rwa [if_pos hm]
  · rw [if_neg hm]
    simp [List.nodup_append, h, hm]

theorem dictLookup_dictMerge (a b : List (String × JsonVal)) (k : String)
    (hb : (dictKeys b).Nodup) :
    dictLookup (dictMerge a b) k =
      match dictLookup b k with
      | some v => some v
      | none => dictLookup a k := by
  induction b generalizing a with
  | nil => simp [dictMerge, dictLookup]
  | cons kv rest ih =>
    obtain ⟨k₁, v₁⟩ := kv
    rw [dictKeys_cons, List.nodup_cons] at hb
    have step : dictMerge a ((k₁, v₁) :: rest) = dictMerge (dictSet a k₁ v₁) rest := rfl
    rw [step, ih (dictSet a k₁ v₁) hb.2]
    by_cases h : k₁ = k
    · subst h
      have hnone : dictLookup rest k₁ = none :=
        dictLookup_eq_none_of_not_mem rest k₁ hb.1
      simp [dictLookup, hnone, dictLookup_dictSet_self]
    · simp only [dictLookup, if_neg h]
      cases dictLookup rest k with
      | none => simp [dictLookup_dictSet_ne a k k₁ v₁ h]
      | some w => simp

end DictLemmas

section ConfigLemmas

theorem walk_obj_cons (d : List (String × JsonVal)) (k : String)
    (rest : List String) :
    ConfigManager.walk (.obj d) (k :: rest) =
      match dictLookup d k with
      | some v => ConfigManager.walk v rest
      | none => none := rfl

theorem walk_setKeys (v : JsonVal) :
    ∀ (ks : List String), ks ≠ [] → ∀ (d : List (String × JsonVal)),
      ConfigManager.walk (.obj (ConfigManager.setKeys d ks v)) ks = some v := by
  intro ks
  induction ks with
  | nil => intro h; exact absurd rfl h
  | cons k rest ih =>
    intro _ d
    cases rest with
    | nil =>
      simp [ConfigManager.setKeys, walk_obj_cons, dictLookup_dictSet_self,
        ConfigManager.walk]
    | cons k' rest' =>
      have hne : k' :: rest' ≠ [] := by simp
      simp only [ConfigManager.setKeys, walk_obj_cons, dictLookup_dictSet_self]
      exact ih hne _

theorem nodup_dictKeys_setKeys (d : List (String × JsonVal))
    (ks : List String) (v : JsonVal) (h : (dictKeys d).Nodup) :
    (dictKeys (ConfigManager.setKeys d ks v)).Nodup := by
  cases ks with
  | nil => exact h
  | cons k rest =>
    cases rest with
    | nil => exact nodup_dictKeys_dictSet d k v h
    | cons k' rest' => exact nodup_dictKeys_dictSet d k _ h

end ConfigLemmas

/-- C5: config values round-trip through persistence.  Setting a nested
dot-separated path to `5`, persisting, and reloading the store (which
merges the persisted document over the defaults at the top level) yields
`5` back for the same path.  The document is quantified over all settings
states whose top-level keys are duplicate-free (true of every real JSON
document). -/
theorem config_roundtrip (ks : List String)
    (settings : List (String × JsonVal))
    (hks : ks ≠ []) (hnd : (dictKeys settings).Nodup) :
    ConfigManager.getKeys
      (ConfigManager.load (ConfigManager.setKeys settings ks (.num 5)))
      ks .null = .num 5 := by
  unfold ConfigManager.load ConfigManager.getKeys
  cases ks with
  | nil => exact absurd rfl hks
  | cons k rest =>
    have hsaved := walk_setKeys (.num 5) (k :: rest) (by simp) settings
    have hnds : (dictKeys (ConfigManager.setKeys settings (k :: rest) (.num 5))).Nodup :=
      nodup_dictKeys_setKeys settings (k :: rest) (.num 5) hnd
    rw [walk_obj_cons] at hsaved
    have hmerged : ConfigManager.walk
        (.obj (dictMerge ConfigManager.default_config
          (ConfigManager.setKeys settings (k :: rest) (.num 5))))
        (k :: rest) = some (.num 5) := by
      rw [walk_obj_cons,
        dictLookup_dictMerge ConfigManager.default_config _ k hnds]
      cases hlk : dictLookup (ConfigManager.setKeys settings (k :: rest) (.num 5)) k with
      | none =>
        rw [hlk] at hsaved
        exact absurd hsaved (by simp)
      | some w =>
        rw [hlk] at hsaved
        have hw : ConfigManager.walk w rest = some (.num 5) := hsaved
        exact hw
    rw [hmerged]

/-- Witness for C5 at the spec's own example: `set("a.b.c", 5)` on an empty
store, reload, `get("a.b.c")` is `5`. -/
theorem config_roundtrip_witness :
    ConfigManager.getKeys
      (ConfigManager.load (ConfigManager.setKeys [] ["a", "b", "c"] (.num 5)))
      ["a", "b", "c"] .null = .num 5 :=
  config_roundtrip ["a", "b", "c"] [] (by simp) (by simp [dictKeys])

/-- C9: a stored `None` is replaced by the caller's default — if the walk
reaches a `null` value (including keys explicitly present, such as the
default `proxy_url`), `get` returns the supplied default; and whenever the
supplied default is not `None`, `get` never returns `None`. -/
theorem config_get_null_default (settings : List (String × JsonVal))
    (ks : List String) (dflt : JsonVal) :
    (ConfigManager.walk (.obj settings) ks = some .null →
      ConfigManager.getKeys settings ks dflt = dflt) ∧
    (dflt ≠ .null → ConfigManager.getKeys settings ks dflt ≠ .null) := by
  constructor
  · intro h
    unfold ConfigManager.getKeys
    rw [h]
  · intro hd
    unfold ConfigManager.getKeys
    cases hw : ConfigManager.walk (.obj settings) ks with
    | none => exact hd
    | some v =>
      cases v with
      | null => exact hd
      | bool b => simp
      | num n => simp
      | str s => simp
      | arr xs => simp
      | obj m => simp

/-- Witness for C9 at the shipped default document: `proxy_url` is present
with value `None`, and `get` returns the caller's default for it. -/
theorem config_get_null_default_witness :
    ConfigManager.getKeys ConfigManager.default_config ["proxy_url"]
      (.str "socks5") = .str "socks5" :=
  (config_get_null_default ConfigManager.default_config ["proxy_url"]
    (.str "socks5")).1 rfl

section ReprLemmas

theorem decDigitVal_digitChar (k : Nat) (h : k < 10) :
    decDigitVal (Nat.digitChar k) = k := by
  interval_cases k <;> rfl

theorem toDigitsCore_ten_succ (f n : Nat) (ds : List Char) :
    Nat.toDigitsCore 10 (f + 1) n ds =
      if n / 10 = 0 then Nat.digitChar (n % 10) :: ds
      else Nat.toDigitsCore 10 f (n / 10) (Nat.digitChar (n % 10) :: ds) := rfl

theorem foldl_toDigitsCore (f : Nat) :
    ∀ (n : Nat) (ds : List Char), n < 10 ^ f →
      (Nat.toDigitsCore 10 f n ds).foldl (fun a c => 10 * a + decDigitVal c) 0 =
        ds.foldl (fun a c => 10 * a + decDigitVal c) n := by
  induction f with
  | zero =>
    intro n ds h
    have hn : n = 0 := by omega
    subst hn
    rfl
  | succ f ih =>
    intro n ds h
    rw [toDigitsCore_ten_succ]
    by_cases h0 : n / 10 = 0
    · rw [if_pos h0, List.foldl_cons]
      have hlt : n < 10 := by omega
      have hmod : n % 10 = n := Nat.mod_eq_of_lt hlt
      rw [decDigitVal_digitChar (n % 10) (Nat.mod_lt n (by norm_num)), hmod]
      norm_num
    · rw [if_neg h0]
      have h' : n / 10 < 10 ^ f := by
        have hp : (10 : Nat) ^ (f + 1) = 10 * 10 ^ f := pow_succ' 10 f
        exact Nat.div_lt_of_lt_mul (hp ▸ h)
      rw [ih (n / 10) (Nat.digitChar (n % 10) :: ds) h', List.foldl_cons,
        decDigitVal_digitChar (n % 10) (Nat.mod_lt n (by norm_num))]
      congr 1
      omega

theorem decVal_repr (n : Nat) : decVal (Nat.repr n).data = n := by
  have hdata : (Nat.repr n).data = Nat.toDigitsCore 10 (n + 1) n [] := rfl
  have hbound : n < 10 ^ (n + 1) :=
    lt_of_lt_of_le (Nat.lt_pow_self (by norm_num) n)
      (Nat.pow_le_pow_right (by norm_num) (Nat.le_succ n))
  rw [hdata]
  exact foldl_toDigitsCore (n + 1) n [] hbound

theorem repr_injective : Function.Injective Nat.repr := by
  intro m n h
  have := congrArg (fun s : String => decVal s.data) h
  simpa [decVal_repr] using this

end ReprLemmas

/-- C6: history entries are kept most-recent-first — `add_entry(A)` then
`add_entry(B)` makes `get_all_entries` return the B entry, then the A
entry, then the previous history, for every starting state and every pair
of clock readings. -/
theorem history_most_recent_first (history : List HistoryManager.HistoryEntry)
    (msA msB : Nat) (isoA isoB titleA urlA titleB urlB : String) :
    HistoryManager.get_all_entries
      (HistoryManager.add_entry
        (HistoryManager.add_entry history msA isoA titleA urlA).2
        msB isoB titleB urlB).2 =
      HistoryManager.mkEntry msB isoB titleB urlB none none none false none none ::
        HistoryManager.mkEntry msA isoA titleA urlA none none none false none none ::
          history := rfl

/-- C4 counterexample: two `add_entry` calls that read the same millisecond
clock value produce identical ids, so the generated ids are not pairwise
unique as the claim states for every call sequence. -/
theorem history_id_collision_counterexample :
    ¬ (((HistoryManager.get_all_entries
        (HistoryManager.addAll [] [(1000, "A", "ua"), (1000, "B", "ub")])).map
          HistoryManager.HistoryEntry.id).Pairwise (· ≠ ·)) := by
  decide

theorem addAll_eq_reverse_map (calls : List (Nat × String × String)) :
    ∀ history, HistoryManager.addAll history calls =
      (calls.map HistoryManager.entryOfCall).reverse ++ history := by
  induction calls with
  | nil => intro history; rfl
  | cons c rest ih =>
    intro history
    obtain ⟨ms, title, url⟩ := c
    show HistoryManager.addAll (HistoryManager.entryOfCall (ms, title, url) :: history) rest = _
    rw [ih]
    simp

/-- C4 amended: provided successive `add_entry` calls observe strictly
increasing millisecond clock readings (the spec's documented >1ms
real-world spacing), the generated ids are pairwise unique, and ordering
entries by the numeric value of the id agrees with insertion order: the
most-recent-first `get_all_entries` list carries the reversed clock
sequence as ids, strictly decreasing numerically. -/
theorem history_ids_unique_of_increasing_clock
    (calls : List (Nat × String × String))
    (hmono : calls.Chain' (fun a b => a.1 < b.1)) :
    ((HistoryManager.get_all_entries (HistoryManager.addAll [] calls)).map
        HistoryManager.HistoryEntry.id) =
      (calls.map (fun c => Nat.repr c.1)).reverse ∧
    ((HistoryManager.get_all_entries (HistoryManager.addAll [] calls)).map
        HistoryManager.HistoryEntry.id).Nodup ∧
    ((HistoryManager.get_all_entries (HistoryManager.addAll [] calls)).map
        HistoryManager.HistoryEntry.id).Pairwise
      (fun a b => decVal b.data < decVal a.data) := by
  have hids : ((HistoryManager.get_all_entries (HistoryManager.addAll [] calls)).map
      HistoryManager.HistoryEntry.id) = (calls.map (fun c => Nat.repr c.1)).reverse := by
    rw [show HistoryManager.get_all_entries (HistoryManager.addAll [] calls) =
        (calls.map HistoryManager.entryOfCall).reverse from by
      rw [HistoryManager.get_all_entries, addAll_eq_reverse_map calls []]
      simp]
    rw [List.map_reverse, List.map_map]
    rfl
  have hpw : (calls.map (fun c => Nat.repr c.1)).Pairwise
      (fun a b => decVal a.data < decVal b.data) := by
    rw [List.pairwise_map]
    have hchain : (calls.map (fun c => c.1)).Chain' (· < ·) :=
      List.chain'_map_of_chain' (fun c : Nat × String × String => c.1)
        (fun a b h => h) hmono
    have hp : calls.Pairwise (fun a b => a.1 < b.1) := by
      rw [List.chain'_iff_pairwise] at hchain
      exact (List.pairwise_map).mp hchain
    exact hp.imp (fun h => by simpa [decVal_repr] using h)
  refine ⟨hids, ?_, ?_⟩
  · rw [hids, List.nodup_reverse]
    exact hpw.imp (fun h => by
      intro heq
      rw [heq] at h
      exact lt_irrefl _ h)
  · rw [hids, List.pairwise_reverse]
    exact hpw

/-- Witness for the amended C4 at two strictly increasing clock readings. -/
theorem history_ids_unique_of_increasing_clock_witness :
    ((HistoryManager.get_all_entries
        (HistoryManager.addAll [] [(1000, "A", "ua"), (2000, "B", "ub")])).map
          HistoryManager.HistoryEntry.id) =
      ([(1000, "A", "ua"), (2000, "B", "ub")].map
        (fun c : Nat × String × String => Nat.repr c.1)).reverse ∧
    ((HistoryManager.get_all_entries
        (HistoryManager.addAll [] [(1000, "A", "ua"), (2000, "B", "ub")])).map
          HistoryManager.HistoryEntry.id).Nodup ∧
    ((HistoryManager.get_all_entries
        (HistoryManager.addAll [] [(1000, "A", "ua"), (2000, "B", "ub")])).map
          HistoryManager.HistoryEntry.id).Pairwise
      (fun a b => decVal b.data < decVal a.data) :=
  history_ids_unique_of_increasing_clock
    [(1000, "A", "ua"), (2000, "B", "ub")] (by simp)

section ChannelLemmas

theorem runApproach_videos_ne_nil_first (max_videos : Nat)
    (lines : List (Option JsonVal)) (rest : List (List (Option JsonVal)))
    (hne : (ChannelDownloader.runApproach max_videos lines).videos ≠ []) :
    ChannelDownloader.get_channel_videos max_videos (lines :: rest) =
      ⟨(ChannelDownloader.runApproach max_videos lines).videos, 1⟩ := by
  rw [ChannelDownloader.get_channel_videos,
    if_neg (by simpa [List.isEmpty_iff] using hne)]

theorem runApproach_videos_nil_step (max_videos : Nat)
    (lines : List (Option JsonVal)) (rest : List (List (Option JsonVal)))
    (h0 : (ChannelDownloader.runApproach max_videos lines).videos = []) :
    ChannelDownloader.get_channel_videos max_videos (lines :: rest) =
      ⟨(ChannelDownloader.get_channel_videos max_videos rest).videos,
       (ChannelDownloader.get_channel_videos max_videos rest).attempted + 1⟩ := by
  rw [ChannelDownloader.get_channel_videos,
    if_pos (by simp [List.isEmpty_iff, h0])]

end ChannelLemmas

/-- C1: channel enumeration tries its ordered strategies one at a time —
if the first `k` strategies each stream zero collected videos and strategy
`k` collects a non-empty list, the whole call returns exactly strategy
`k`'s videos having attempted only strategies `0..k`; if every strategy
collects zero videos, the call returns the empty list after attempting all
of them (a reported failure, not an exception). -/
theorem channel_strategy_fallback (max_videos : Nat)
    (approaches : List (List (Option JsonVal))) :
    (∀ k, k < approaches.length →
      (∀ j, j < k →
        (ChannelDownloader.runApproach max_videos (approaches.getD j [])).videos = []) →
      (ChannelDownloader.runApproach max_videos (approaches.getD k [])).videos ≠ [] →
      ChannelDownloader.get_channel_videos max_videos approaches =
        ⟨(ChannelDownloader.runApproach max_videos (approaches.getD k [])).videos,
         k + 1⟩) ∧
    ((∀ lines, lines ∈ approaches →
        (ChannelDownloader.runApproach max_videos lines).videos = []) →
      ChannelDownloader.get_channel_videos max_videos approaches =
        ⟨[], approaches.length⟩) := by
  induction approaches with
  | nil =>
    constructor
    · intro k hk
      exact absurd hk (by simp)
    · intro _
      rfl
  | cons lines rest ih =>
    constructor
    · intro k hk hprev hkne
      cases k with
      | zero =>
        have hne : (ChannelDownloader.runApproach max_videos lines).videos ≠ [] := by
          simpa using hkne
        simpa using runApproach_videos_ne_nil_first max_videos lines rest hne
      | succ k' =>
        have h0 : (ChannelDownloader.runApproach max_videos lines).videos = [] := by
          simpa using hprev 0 (Nat.succ_pos k')
        have hki : k' < rest.length := by simpa using hk
        have ihk := ih.1 k' hki
          (fun j hj => by simpa using hprev (j + 1) (Nat.succ_lt_succ hj))
          (by simpa using hkne)
        rw [runApproach_videos_nil_step max_videos lines rest h0, ihk]
        simp
    · intro hall
      have h0 : (ChannelDownloader.runApproach max_videos lines).videos = [] :=
        hall lines (List.mem_cons_self lines rest)
      have ihall := ih.2 (fun l hl => hall l (List.mem_cons_of_mem lines hl))
      rw [runApproach_videos_nil_step max_videos lines rest h0, ihall]
      simp

/-- Witness for C1 at the spec's own scenario: strategy 1 yields zero
videos (its only record has no URL), strategy 2 yields 3 valid records,
strategy 3 is never attempted — the call returns strategy 2's videos with
exactly 2 strategies attempted. -/
theorem channel_strategy_fallback_witness :
    ChannelDownloader.get_channel_videos 0
      [[some (.obj [("x", .null)])],
       [some (.obj [("webpage_url", .str "u1")]),
        some (.obj [("url", .str "u2")]),
        some (.obj [("webpage_url", .str "u3")])],
       [some (.obj [("webpage_url", .str "u4")])]] =
      ⟨(ChannelDownloader.runApproach 0
          ([[some (.obj [("x", .null)])],
            [some (.obj [("webpage_url", .str "u1")]),
             some (.obj [("url", .str "u2")]),
             some (.obj [("webpage_url", .str "u3")])],
            [some (.obj [("webpage_url", .str "u4")])]].getD 1 [])).videos,
       2⟩ :=
  (channel_strategy_fallback 0
    [[some (.obj [("x", .null)])],
     [some (.obj [("webpage_url", .str "u1")]),
      some (.obj [("url", .str "u2")]),
      some (.obj [("webpage_url", .str "u3")])],
     [some (.obj [("webpage_url", .str "u4")])]]).1 1 (by decide)
    (fun j hj => by
      have hj0 : j = 0 := by omega
      subst hj0
      rfl)
    (List.cons_ne_nil _ _)

/-- C7: one malformed (unparseable) line between two valid video records is
skipped without aborting the stream — exactly the two records become
VideoDescriptors, in stream order, each with its per-video and progress
callback fired. -/
theorem channel_malformed_line_skipped (a b : List (String × JsonVal))
    (ha : (JsonVal.obj a).isTruthy = true)
    (hau : (ChannelDownloader.mkVideoInfo a).url.isTruthy = true)
    (hb : (JsonVal.obj b).isTruthy = true)
    (hbu : (ChannelDownloader.mkVideoInfo b).url.isTruthy = true) :
    ChannelDownloader.runApproach 0 [some (.obj a), none, some (.obj b)] =
      ⟨[ChannelDownloader.mkVideoInfo a, ChannelDownloader.mkVideoInfo b], 2,
       [.videoFound (ChannelDownloader.mkVideoInfo a), .progress 0 1,
        .videoFound (ChannelDownloader.mkVideoInfo b), .progress 0 2],
       false⟩ := by
  rw [ChannelDownloader.runApproach]
  simp [ChannelDownloader.runLines, ha, hau, hb, hbu]

/-- Witness for C7: a concrete stream with one invalid JSON line between
two valid records yields exactly the two descriptors in order. -/
theorem channel_malformed_line_skipped_witness :
    ChannelDownloader.runApproach 0
      [some (.obj [("webpage_url", .str "uA")]), none,
       some (.obj [("url", .str "uB")])] =
      ⟨[ChannelDownloader.mkVideoInfo [("webpage_url", .str "uA")],
        ChannelDownloader.mkVideoInfo [("url", .str "uB")]], 2,
       [.videoFound (ChannelDownloader.mkVideoInfo [("webpage_url", .str "uA")]),
        .progress 0 1,
        .videoFound (ChannelDownloader.mkVideoInfo [("url", .str "uB")]),
        .progress 0 2],
       false⟩ :=
  channel_malformed_line_skipped [("webpage_url", .str "uA")]
    [("url", .str "uB")] rfl rfl rfl rfl

/-- C10: a syntactically valid record without a non-empty URL (neither
`webpage_url` nor `url` truthy) is silently dropped — processing it leaves
the collected videos, the yield counter (which feeds the `max_videos`
check) and the callback event list untouched, for every loop state. -/
theorem channel_urlless_record_dropped (max_videos : Nat)
    (videos : List ChannelDownloader.VideoInfo) (yielded : Nat)
    (events : List ChannelDownloader.CbEvent)
    (m : List (String × JsonVal)) (rest : List (Option JsonVal))
    (hm : (JsonVal.obj m).isTruthy = true)
    (hurl : (ChannelDownloader.mkVideoInfo m).url.isTruthy = false) :
    ChannelDownloader.runLines max_videos videos yielded events
      (some (.obj m) :: rest) =
      ChannelDownloader.runLines max_videos videos yielded events rest := by
  conv_lhs => rw [ChannelDownloader.runLines]
  simp [hm, hurl]

/-- Witness for C10: a record with only a title — no `webpage_url`, no
`url` — is processed exactly like an absent line. -/
theorem channel_urlless_record_dropped_witness :
    ChannelDownloader.runLines 0 [] 0 []
      [some (.obj [("title", .str "t")])] =
      ChannelDownloader.runLines 0 [] 0 [] [] :=
  channel_urlless_record_dropped 0 [] 0 [] [("title", .str "t")] [] rfl rfl

/-- C2 counterexample: a chunked transfer that writes one 5-byte chunk and
then fails (the iterator raises mid-stream, no cancellation) ends in a
non-Completed terminal state with the partially written destination file
still on disk — the failure path performs no `unlink`, contradicting the
claim that every non-Completed terminal state leaves no file behind. -/
theorem download_failure_leaves_file_counterexample :
    (Downloader.downloadStream none
        [Downloader.ChunkItem.data 5, Downloader.ChunkItem.interrupted]).state ≠
      Downloader.JobState.Completed ∧
    (Downloader.downloadStream none
        [Downloader.ChunkItem.data 5, Downloader.ChunkItem.interrupted]).fileExists =
      true := by
  decide

theorem runChunks_cancelled (n : Nat) :
    ∀ (stream : List Downloader.ChunkItem) (i downloaded : Nat),
      i ≤ n → n - i < stream.length →
      (∀ j, j ≤ n - i →
        stream.getD j .interrupted ≠ Downloader.ChunkItem.interrupted) →
      ∃ written, Downloader.runChunks (some n) i downloaded stream =
        ⟨.Cancelled, false, written⟩ := by
  intro stream
  induction stream with
  | nil =>
    intro i downloaded _ hlen _
    exact absurd hlen (by simp)
  | cons c rest ih =>
    intro i downloaded hin hlen hno
    have hc : c ≠ Downloader.ChunkItem.interrupted := by
      have := hno 0 (Nat.zero_le _)
      simpa using this
    cases c with
    | interrupted => exact absurd rfl hc
    | data size =>
      rw [Downloader.runChunks]
      by_cases hcan : n ≤ i
      · rw [show Downloader.cancelledAt (some n) i = true from by
          simp [Downloader.cancelledAt, hcan]]
        exact ⟨downloaded, rfl⟩
      · rw [show Downloader.cancelledAt (some n) i = false from by
          simp [Downloader.cancelledAt]; omega]
        simp only [Bool.false_eq_true, if_false]
        apply ih
        · omega
        · simp at hlen ⊢
          omega
        · intro j hj
          have := hno (j + 1) (by omega)
          simpa using this

/-- C2 amended: on cancellation the cleanup does hold — if the cancellation
flag becomes true at some iteration the stream reaches without having
raised (no `interrupted` item at or before it), the loop unlinks the
partial file and returns, so the job's terminal state is `Cancelled` and
the destination file does not remain on disk.  (On a mid-stream failure
the partial file remains; see the counterexample.) -/
theorem download_cancel_cleanup (n : Nat)
    (stream : List Downloader.ChunkItem)
    (hlen : n < stream.length)
    (hno : ∀ j, j ≤ n →
      stream.getD j .interrupted ≠ Downloader.ChunkItem.interrupted) :
    (Downloader.downloadStream (some n) stream).state =
      Downloader.JobState.Cancelled ∧
    (Downloader.downloadStream (some n) stream).fileExists = false := by
  obtain ⟨written, hw⟩ :=
    runChunks_cancelled n stream 0 0 (Nat.zero_le n) (by simpa using hlen)
      (by simpa using hno)
  rw [Downloader.downloadStream, hw]
  exact ⟨rfl, rfl⟩

/-- Witness for the amended C2: cancelling at iteration 1 of a healthy
3-chunk stream removes the file and ends Cancelled. -/
theorem download_cancel_cleanup_witness :
    (Downloader.downloadStream (some 1)
        [Downloader.ChunkItem.data 3, Downloader.ChunkItem.data 4,
         Downloader.ChunkItem.data 5]).state =
      Downloader.JobState.Cancelled ∧
    (Downloader.downloadStream (some 1)
        [Downloader.ChunkItem.data 3, Downloader.ChunkItem.data 4,
         Downloader.ChunkItem.data 5]).fileExists = false :=
  download_cancel_cleanup 1
    [Downloader.ChunkItem.data 3, Downloader.ChunkItem.data 4,
     Downloader.ChunkItem.data 5] (by decide)
    (fun j hj => by
      interval_cases j <;> decide)

/-- C8: once the primary tool has failed, the fallback makes at most 2
`create_sessions` attempts, sleeps a fixed 2 seconds exactly between
consecutive attempts (one backoff fewer than attempts made), reports the
connection error exactly when both attempts fail, and fetches the video's
metadata exactly when some attempt succeeds — never after reporting the
error. -/
theorem session_retry_fallback (ytdlpSucceeds : Bool) (outcomes : Nat → Bool)
    (h : ytdlpSucceeds = false) :
    Downloader.videoInfoRun ytdlpSucceeds outcomes =
      some (Downloader.fetchVideoSession outcomes) ∧
    (Downloader.fetchVideoSession outcomes).session.attempts ≤ 2 ∧
    (Downloader.fetchVideoSession outcomes).session.sleeps =
      List.replicate ((Downloader.fetchVideoSession outcomes).session.attempts - 1) 2 ∧
    ((Downloader.fetchVideoSession outcomes).connectionErrorEmitted = true ↔
      (outcomes 0 = false ∧ outcomes 1 = false)) ∧
    ((Downloader.fetchVideoSession outcomes).metadataFetched = true ↔
      (outcomes 0 = true ∨ outcomes 1 = true)) ∧
    ((Downloader.fetchVideoSession outcomes).connectionErrorEmitted = true →
      (Downloader.fetchVideoSession outcomes).metadataFetched = false) := by
  subst h
  have hrange : (List.range Downloader.max_retries).map outcomes =
      [outcomes 0, outcomes 1] := rfl
  cases h0 : outcomes 0 <;> cases h1 : outcomes 1 <;>
    simp [Downloader.videoInfoRun, Downloader.fetchVideoSession, hrange, h0, h1,
      Downloader.createSessionsRetry]

/-- Witness for C8 in the all-attempts-fail case: 2 attempts, one 2-second
backoff, the connection error is emitted and the metadata fetch is never
reached. -/
theorem session_retry_fallback_witness :
    Downloader.videoInfoRun false (fun _ => false) =
      some (Downloader.fetchVideoSession (fun _ => false)) ∧
    (Downloader.fetchVideoSession (fun _ => false)).session.attempts ≤ 2 ∧
    (Downloader.fetchVideoSession (fun _ => false)).session.sleeps =
      List.replicate
        ((Downloader.fetchVideoSession (fun _ => false)).session.attempts - 1) 2 ∧
    ((Downloader.fetchVideoSession (fun _ => false)).connectionErrorEmitted = true ↔
      ((fun _ : Nat => false) 0 = false ∧ (fun _ : Nat => false) 1 = false)) ∧
    ((Downloader.fetchVideoSession (fun _ => false)).metadataFetched = true ↔
      ((fun _ : Nat => false) 0 = true ∨ (fun _ : Nat => false) 1 = true)) ∧
    ((Downloader.fetchVideoSession (fun _ => false)).connectionErrorEmitted = true →
      (Downloader.fetchVideoSession (fun _ => false)).metadataFetched = false) :=
  session_retry_fallback false (fun _ => false) rfl

theorem drainFrom_eq (queue : List String) :
    ∀ (outcomes : List Bool) (idx : Nat), outcomes ≠ [] →
      idx + outcomes.length = queue.length →
      GuiQueue.drainFrom queue idx outcomes =
        ⟨queue.drop idx, outcomes.count true, outcomes.count false,
         outcomes.getLast? == some false⟩ := by
  intro outcomes
  induction outcomes with
  | nil => intro idx h; exact absurd rfl h
  | cons ok rest ih =>
    intro idx _ hlen
    have hidx : idx < queue.length := by simp at hlen; omega
    have hdrop : queue.drop idx = queue.getD idx "" :: queue.drop (idx + 1) := by
      rw [List.getD_eq_getElem?_getD, List.getElem?_eq_getElem hidx]
      exact List.drop_eq_getElem_cons hidx
    by_cases hr : rest = []
    · subst hr
      have hlast : idx + 1 = queue.length := by simpa using hlen
      have hdropnil : queue.drop (idx + 1) = [] :=
        List.drop_eq_nil_of_le (le_of_eq hlast.symm)
      rw [GuiQueue.drainFrom, if_pos hidx,
        if_neg (by simp; omega)]
      rw [hdrop, hdropnil]
      cases ok <;> simp
    · have hadv : idx + 1 < queue.length := by
        have : 1 ≤ rest.length := by
          cases rest with
          | nil => exact absurd rfl hr
          | cons a l => simp
        simp at hlen
        omega
      rw [GuiQueue.drainFrom, if_pos hidx,
        if_pos (by simp [List.isEmpty_iff]; exact ⟨by intro h; subst h; simp at hidx, hadv⟩)]
      rw [ih (idx + 1) hr (by simp at hlen ⊢; omega)]
      have hlast : (ok :: rest).getLast? = rest.getLast? := by
        cases rest with
        | nil => exact absurd rfl hr
        | cons a l => rw [List.getLast?_cons_cons]
      cases ok <;> simp [hdrop, hlast, List.count_cons]

/-- C3: a job's failure advances the queue exactly as completion does —
for every queue and every per-job outcome sequence, all queued jobs are
started in enqueue order regardless of individual failures (the queue is
never aborted), each failure is logged, and the failure dialog is surfaced
to the user exactly when the failed job is the last one in the queue. -/
theorem queue_skip_and_continue (queue : List String) (outcomes : List Bool)
    (hne : queue ≠ []) (hlen : outcomes.length = queue.length) :
    (GuiQueue.queue_downloads queue outcomes).started = queue ∧
    ((GuiQueue.queue_downloads queue outcomes).errorSurfaced = true ↔
      outcomes.getLast? = some false) ∧
    (GuiQueue.queue_downloads queue outcomes).completions =
      outcomes.count true ∧
    (GuiQueue.queue_downloads queue outcomes).failuresLogged =
      outcomes.count false := by
  have ho : outcomes ≠ [] := by
    intro h
    subst h
    simp at hlen
    exact hne (List.eq_nil_of_length_eq_zero hlen.symm)
  rw [GuiQueue.queue_downloads,
    drainFrom_eq queue outcomes 0 ho (by simpa using hlen)]
  refine ⟨by simp, ?_, rfl, rfl⟩
  simp

/-- Witness for C3 at the spec's own scenario: a 3-item queue whose second
job fails yields all 3 jobs started, 2 completions, 1 logged failure and
no user-visible error (the coordinator reports overall success). -/
theorem queue_skip_and_continue_witness :
    (GuiQueue.queue_downloads ["u1", "u2", "u3"] [true, false, true]).started =
      ["u1", "u2", "u3"] ∧
    ((GuiQueue.queue_downloads ["u1", "u2", "u3"]
        [true, false, true]).errorSurfaced = true ↔
      [true, false, true].getLast? = some false) ∧
    (GuiQueue.queue_downloads ["u1", "u2", "u3"]
      [true, false, true]).completions = [true, false, true].count true ∧
    (GuiQueue.queue_downloads ["u1", "u2", "u3"]
      [true, false, true]).failuresLogged = [true, false, true].count false :=
  queue_skip_and_continue ["u1", "u2", "u3"] [true, false, true]
    (by simp) (by simp)
